import Mathlib

/-!
Verification of the document text-retrieval pipeline of the legalserver-mcp
server (`src/index.js`).

Strings from the JavaScript source are modelled as `List Char`; JS string
methods (`slice`, `trim`, `toLowerCase`, `includes`, `startsWith`,
`endsWith`, `split(/\n{2,}/)`, `join`) are embedded as executable functions
on `List Char`.  JS numbers that the code uses as integers are modelled as
`Int`/`Nat`.  The embedding follows the source; defaulting of arguments
(`args.mode || "preview"`, the `max_chars` fallback, `chunk_index`
fallback) is modelled with explicit option/variant types.
-/

/-- JS `needle.length === 0 ? true : hay.includes(needle)` — substring test,
`hay.includes(needle)` from the source, recursing down the haystack. -/
def jsIncludes (needle : List Char) : List Char → Bool
  | [] => needle.isEmpty
  | c :: t => needle.isPrefixOf (c :: t) || jsIncludes needle t

/-- JS `String.prototype.trim` (ASCII whitespace model): drop whitespace
from both ends. -/
def jsTrim (t : List Char) : List Char :=
  ((t.dropWhile Char.isWhitespace).reverse.dropWhile Char.isWhitespace).reverse

/-- JS `String.prototype.toLowerCase` (ASCII model). -/
def jsLower (t : List Char) : List Char :=
  t.map Char.toLower

/-- The two-character separator "\n\n" used by the search accumulator and
by `matches.join(. . .)` separator. -/
def nl2 : List Char := "\n\n".data

-- =========================================================================
-- chunkText (src/index.js lines 79-85)
-- =========================================================================

/-- Fuel-indexed worker for `chunkText`: one step per produced chunk.
`fuel` only serves termination; `chunkText` supplies enough fuel for any
positive budget (the JS loop does not terminate for `maxChars = 0`, a value
the caller never produces since the effective budget is always positive). -/
def chunkTextGo : Nat → List Char → Nat → List (List Char)
  | 0, _, _ => []
  | fuel + 1, t, maxChars =>
    if t.isEmpty then []
    else t.take maxChars :: chunkTextGo fuel (t.drop maxChars) maxChars

/-- `function chunkText(text, maxChars)`: `for (let i = 0; i < text.length;
i += maxChars) chunks.push(text.slice(i, i + maxChars))`. -/
def chunkText (t : List Char) (maxChars : Nat) : List (List Char) :=
  chunkTextGo (t.length + 1) t maxChars

-- =========================================================================
-- Format dispatch of get_document (src/index.js lines 583-655)
-- =========================================================================

/-- The five mutually exclusive outcomes of the format dispatch:
image → unsupported-with-OCR-suggestion, plain text → UTF-8 decode,
pdf → PDF extraction, word → word-processor extraction, anything else →
unsupported-format failure. -/
inductive Strategy
  | imageUnsupported
  | plainText
  | pdf
  | word
  | unsupported
deriving DecidableEq

/-- The if/else-if chain of `get_document` (lines 592-655), given the
effective MIME type and the identifier (`filename || document_id ||
document_uuid`):
`mimeType.startsWith("image/")`, then
`mimeType.startsWith("text/") || mimeType.includes("plain")`, then
`mimeType === "application/pdf" || identifier.toLowerCase().endsWith(".pdf")
|| mimeType.includes("pdf")`, then
`mimeType.includes("word") || mimeType.includes("officedocument")`,
else the unsupported-format branch. -/
def dispatchFormat (mimeType identifier : List Char) : Strategy :=
  if ("image/".data).isPrefixOf mimeType then .imageUnsupported
  else if ("text/".data).isPrefixOf mimeType || jsIncludes "plain".data mimeType then .plainText
  else if mimeType = "application/pdf".data
      || (".pdf".data).isSuffixOf (jsLower identifier)
      || jsIncludes "pdf".data mimeType then .pdf
  else if jsIncludes "word".data mimeType || jsIncludes "officedocument".data mimeType then .word
  else .unsupported

/-- Modelled from the spec sentence of claim C2 ("checked in this order,
first match wins"), with the disjuncts of the PDF test in the order the
claim lists them: MIME starting with image/; MIME starting with text/ or
containing "plain"; MIME equal to application/pdf or containing "pdf" or
identifier ending in .pdf (the claim leaves the casing of the filename test
unspecified; as in the source, the lower-cased identifier is tested); MIME
containing "word" or "officedocument"; anything else unsupported. -/
def dispatchFormatSpec (mimeType identifier : List Char) : Strategy :=
  if ("image/".data).isPrefixOf mimeType then .imageUnsupported
  else if ("text/".data).isPrefixOf mimeType || jsIncludes "plain".data mimeType then .plainText
  else if mimeType = "application/pdf".data
      || jsIncludes "pdf".data mimeType
      || (".pdf".data).isSuffixOf (jsLower identifier) then .pdf
  else if jsIncludes "word".data mimeType || jsIncludes "officedocument".data mimeType then .word
  else .unsupported

-- =========================================================================
-- Paragraph splitting: fullText.split(/\n{2,}/)  (line 769)
-- =========================================================================

/-- When a run of newlines ends without forming a separator, the run is
empty or a single `'\n'` that belongs to the current paragraph (`cur` is
kept in reverse). -/
def flushPending (cur : List Char) (pending : Nat) : List Char :=
  if pending = 1 then '\n' :: cur else cur

/-- Scanner for `split(/\n{2,}/)`: `cur` is the current paragraph in
reverse, `pending` counts the `'\n'` run currently being read.  A run of
two or more newlines is a separator (consumed, maximal munch); a single
newline stays inside the paragraph. -/
def splitParasGo : List Char → List Char → Nat → List (List Char)
  | [], cur, pending =>
    if 2 ≤ pending then [cur.reverse, []] else [(flushPending cur pending).reverse]
  | c :: rest, cur, pending =>
    if c = '\n' then splitParasGo rest cur (pending + 1)
    else if 2 ≤ pending then cur.reverse :: splitParasGo rest [c] 0
    else splitParasGo rest (c :: flushPending cur pending) 0

/-- `fullText.split(/\n{2,}/)`: split on maximal runs of two or more
newlines. -/
def splitParagraphs (t : List Char) : List (List Char) :=
  splitParasGo t [] 0

-- =========================================================================
-- Search accumulation loop (src/index.js lines 769-791)
-- =========================================================================

/-- The `context` array built for a matching paragraph `i`:
`if (i > 0) context.push(paragraphs[i-1]); context.push(paragraphs[i]);
if (i < paragraphs.length - 1) context.push(paragraphs[i+1]);`. -/
def contextAt (ps : List (List Char)) (i : Nat) : List (List Char) :=
  (if 0 < i then [ps.getD (i - 1) []] else [])
    ++ [ps.getD i []]
    ++ (if i + 1 < ps.length then [ps.getD (i + 1) []] else [])

/-- The inner `for (const p of context)` loop: state is
`(matches, accumulated)`; `if (accumulated.length + p.length + 2 > maxChars)
break;` else `matches.push(p); accumulated += p + separator;`. -/
def addContext (mc : Nat) : List (List Char) → List (List Char) × List Char → List (List Char) × List Char
  | [], st => st
  | p :: rest, (ms, acc) =>
    if mc < acc.length + p.length + 2 then (ms, acc)
    else addContext mc rest (ms ++ [p], acc ++ p ++ nl2)

/-- The outer `for (let i = 0; ...)` loop over paragraph indices: on a
case-insensitive substring match of the query, run the inner context loop;
after each index, `if (accumulated.length >= maxChars) break;`. -/
def searchGo (ps : List (List Char)) (q : List Char) (mc : Nat) :
    List Nat → List (List Char) × List Char → List (List Char) × List Char
  | [], st => st
  | i :: rest, st =>
    let st2 := if jsIncludes q (jsLower (ps.getD i [])) then addContext mc (contextAt ps i) st else st
    if mc ≤ st2.2.length then st2 else searchGo ps q mc rest st2

/-- The `matches` array produced by the search loop for paragraphs `ps`,
trimmed lower-cased query `q` and budget `mc`. -/
def searchMatches (ps : List (List Char)) (q : List Char) (mc : Nat) : List (List Char) :=
  (searchGo ps q mc (List.range ps.length) ([], [])).1

/-- `matches.join` with the two-newline separator. -/
def joinSep : List (List Char) → List Char
  | [] => []
  | [p] => p
  | p :: p2 :: rest => p ++ nl2 ++ joinSep (p2 :: rest)

-- =========================================================================
-- get_document argument handling (src/index.js lines 657-660, 717, 753)
-- =========================================================================

/-- A JS tool argument that the source inspects with `typeof x ===
"number"`: a number, a present-but-non-numeric value, or absent. -/
inductive NumArg
  | num (n : Int)
  | nonNumeric
  | absent
deriving DecidableEq

/-- `const mode = args.mode || "preview";` — `undefined` and the empty
string are falsy. -/
def effMode : Option String → String
  | none => "preview"
  | some m => if m = "" then "preview" else m

/-- `const maxChars = typeof args.max_chars === "number" && args.max_chars
> 0 ? args.max_chars : 8000;`. -/
def effMaxChars : NumArg → Nat
  | .num n => if 0 < n then n.toNat else 8000
  | .nonNumeric => 8000
  | .absent => 8000

/-- `const idx = typeof args.chunk_index === "number" ? args.chunk_index :
0;`. -/
def effChunkIndex : NumArg → Int
  | .num n => n
  | .nonNumeric => 0
  | .absent => 0

/-- The arguments of a `get_document` call that the chunk/access engine
reads (the document identifiers only select the payload upstream). -/
structure Args where
  mode : Option String
  chunk_index : NumArg
  max_chars : NumArg
  search_query : Option (List Char)
deriving DecidableEq

-- =========================================================================
-- The chunk/access engine of get_document (src/index.js lines 657-841)
-- =========================================================================

/-- The template literal of line 727: `chunk_index `, the index, ` out of
range (0-`, the last valid index, `)`. -/
def chunkRangeMsg (idx : Int) (n : Nat) : List Char :=
  "chunk_index ".data ++ (toString idx).data ++ " out of range (0-".data
    ++ (toString (n - 1)).data ++ ")".data

/-- The `suggestion` string of the full-mode size guard (line 691). -/
def sizeGuardSuggestion : List Char :=
  "Call get_document with mode=\"preview\", \"chunk\", or \"search\" instead.".data

/-- The structured outcome of the chunk/access engine, one constructor per
`return` of lines 662-841 (the constant `document_identifier` and literal
message fields that no claim inspects are not carried). -/
inductive DocResult
  | noText (mode : String)
  | sizeGuardFail (estimatedTokens : Nat) (suggestion : List Char)
  | previewOk (totalLength estimatedTokens approxChunks : Nat) (text : List Char)
  | chunkRangeFail (idx : Int) (approxChunks totalLength : Nat) (errMsg : List Char)
  | chunkOk (totalLength estimatedTokens approxChunks chunkIndex : Nat) (text : List Char)
  | searchQueryMissing
  | searchOk (query : List Char) (totalLength estimatedTokens snippetCount : Nat) (text : List Char)
  | fullOk (totalLength estimatedTokens : Nat) (truncated : Bool) (text : List Char)
  | unknownMode (mode : String)
deriving DecidableEq

/-- The mode engine of `get_document` (lines 657-841), given the extracted
text and the call arguments: empty-text guard, full-mode size guard, then
the preview / chunk / search / full / unknown-mode branches, in source
order.  `ESTIMATED_TOKENS = Math.round(totalLength / 4)` is
`(totalLength + 2) / 4` in natural-number arithmetic. -/
def getDocumentView (text : List Char) (a : Args) : DocResult :=
  let mode := effMode a.mode
  let mc := effMaxChars a.max_chars
  if text.isEmpty || (jsTrim text).isEmpty then .noText mode
  else
    let est := (text.length + 2) / 4
    let chunks := chunkText text mc
    if mode = "full" ∧ 40000 < est then .sizeGuardFail est sizeGuardSuggestion
    else if mode = "preview" then
      .previewOk text.length est chunks.length (chunks.getD 0 [])
    else if mode = "chunk" then
      let idx := effChunkIndex a.chunk_index
      if idx < 0 ∨ (chunks.length : Int) ≤ idx then
        .chunkRangeFail idx chunks.length text.length (chunkRangeMsg idx chunks.length)
      else
        .chunkOk text.length est chunks.length idx.toNat (chunks.getD idx.toNat [])
    else if mode = "search" then
      let q := jsLower (jsTrim (a.search_query.getD []))
      if q.isEmpty then .searchQueryMissing
      else
        let ms := searchMatches (splitParagraphs text) q mc
        .searchOk q text.length est ms.length (joinSep ms)
    else if mode = "full" then
      .fullOk text.length est (decide (mc < text.length))
        (if mc < text.length then text.take mc else text)
    else .unknownMode mode

-- =========================================================================
-- Failure payload shapes (claim C7)
-- =========================================================================

/-- The `success` tag of each JSON payload of lines 662-841. -/
def isFailure : DocResult → Bool
  | .noText _ => true
  | .sizeGuardFail _ _ => true
  | .previewOk _ _ _ _ => false
  | .chunkRangeFail _ _ _ _ => true
  | .chunkOk _ _ _ _ _ => false
  | .searchQueryMissing => true
  | .searchOk _ _ _ _ _ => false
  | .fullOk _ _ _ _ => false
  | .unknownMode _ => true

/-- The JSON keys of each payload of lines 662-841, in source order. -/
def resultFields : DocResult → List String
  | .noText _ => ["success", "document_identifier", "mode", "error"]
  | .sizeGuardFail _ _ =>
    ["success", "document_identifier", "mode", "error", "estimated_tokens", "suggestion"]
  | .previewOk _ _ _ _ =>
    ["success", "document_identifier", "mode", "total_length", "estimated_tokens",
     "approx_chunks", "chunk_index", "text", "note"]
  | .chunkRangeFail _ _ _ _ =>
    ["success", "document_identifier", "mode", "error", "total_length", "approx_chunks"]
  | .chunkOk _ _ _ _ _ =>
    ["success", "document_identifier", "mode", "total_length", "estimated_tokens",
     "approx_chunks", "chunk_index", "text"]
  | .searchQueryMissing => ["success", "document_identifier", "mode", "error"]
  | .searchOk _ _ _ _ _ =>
    ["success", "document_identifier", "mode", "query", "total_length",
     "estimated_tokens", "snippet_count", "text"]
  | .fullOk _ _ _ _ =>
    ["success", "document_identifier", "mode", "total_length", "estimated_tokens",
     "truncated", "text"]
  | .unknownMode _ => ["success", "document_identifier", "mode", "error"]

/-- Keys of the image-document failure payload (lines 597-604). -/
def imageUnsupportedFields : List String :=
  ["success", "document_identifier", "mime_type", "error", "suggestion", "size_bytes"]

/-- Keys of the unsupported-format failure payload (lines 644-651). -/
def unsupportedFormatFields : List String :=
  ["success", "document_identifier", "mime_type", "error", "suggestion", "size_bytes"]

/-- Keys of the extraction-failure payload (lines 849-855). -/
def extractionFailureFields : List String :=
  ["success", "document_identifier", "mime_type", "error", "suggestion"]

/-- Keys of the no-case-found failure payload of search_case_by_number
(lines 331-335). -/
def caseNotFoundFields : List String := ["success", "error", "suggestion"]

/-- Keys of the no-documents failure payload of list_case_documents
(lines 499-503). -/
def noDocumentsFields : List String := ["success", "error", "suggestion"]

/-- The envelope the catch-all handler of the dispatcher returns (lines
863-879): `{error:true, tool, message, suggestion}` plus `isError: true`. -/
structure ErrorEnvelope where
  error : Bool
  tool : String
  message : String
  suggestion : String
  isErrorFlag : Bool
deriving DecidableEq

/-- The `catch (error)` block of the CallToolRequestSchema handler: every
exception escaping a tool body becomes this returned envelope. -/
def wrapException (toolName msg : String) : ErrorEnvelope :=
  { error := true
    tool := toolName
    message := msg
    suggestion := "Check the parameters and try again. Ensure the case exists and you have proper permissions."
    isErrorFlag := true }

-- =========================================================================
-- Sequential invocation model (claim C8)
-- =========================================================================

/-- One `get_document` invocation as seen by the chunk/access engine:
the extracted text and the call arguments. -/
structure Invocation where
  text : List Char
  args : Args
deriving DecidableEq

/-- Running one invocation of the engine. -/
def runInvocation (inv : Invocation) : DocResult :=
  getDocumentView inv.text inv.args

-- =========================================================================
-- Spec-side search definitions (claim C5)
-- =========================================================================

/-- Sum of paragraph lengths plus the two separator characters each
admitted paragraph costs in the accumulator. -/
def accLen (ms : List (List Char)) : Nat :=
  (ms.map (fun p => p.length + 2)).sum

/-- The greedy prefix of a context block that fits the budget: paragraphs
are admitted while the running total plus the paragraph plus the
two-character separator stays within `mc`; the first paragraph that would
exceed the budget ends the block. -/
def greedyTake (mc : Nat) : Nat → List (List Char) → List (List Char)
  | _, [] => []
  | acc, p :: rest =>
    if mc < acc + p.length + 2 then []
    else p :: greedyTake mc (acc + p.length + 2) rest

/-- Modelled from the amended claim C5: each matching paragraph contributes
the greedy prefix of its context block; overflow ends only the current
block, the scan continues with later matches and stops once the
accumulated length reaches the budget. -/
def searchAmendedGo (ps : List (List Char)) (q : List Char) (mc : Nat) :
    List Nat → List (List Char) → List (List Char)
  | [], ms => ms
  | i :: rest, ms =>
    let ms2 := if jsIncludes q (jsLower (ps.getD i []))
      then ms ++ greedyTake mc (accLen ms) (contextAt ps i) else ms
    if mc ≤ accLen ms2 then ms2 else searchAmendedGo ps q mc rest ms2

/-- The amended-claim search result. -/
def searchAmended (ps : List (List Char)) (q : List Char) (mc : Nat) : List (List Char) :=
  searchAmendedGo ps q mc (List.range ps.length) []

/-- Modelled from claim C5 as stated: the inner accumulation that stops the
WHOLE scan at the first paragraph that would exceed the budget (the `Bool`
flags that the stop happened). -/
def addAllOrStop (mc : Nat) : List (List Char) → List (List Char) × Nat → (List (List Char) × Nat) × Bool
  | [], st => (st, false)
  | p :: rest, (ms, acc) =>
    if mc < acc + p.length + 2 then ((ms, acc), true)
    else addAllOrStop mc rest (ms ++ [p], acc + p.length + 2)

/-- Modelled from claim C5 as stated: "accumulation into the output stops
as soon as appending the next paragraph would exceed maxChars — earlier
matches are never evicted, and no further paragraphs are added after the
first one that would exceed the budget". -/
def searchClaimedGo (ps : List (List Char)) (q : List Char) (mc : Nat) :
    List Nat → List (List Char) × Nat → List (List Char)
  | [], st => st.1
  | i :: rest, st =>
    if jsIncludes q (jsLower (ps.getD i [])) then
      match addAllOrStop mc (contextAt ps i) st with
      | (st2, true) => st2.1
      | (st2, false) => if mc ≤ st2.2 then st2.1 else searchClaimedGo ps q mc rest st2
    else searchClaimedGo ps q mc rest st

/-- The search result claim C5 describes. -/
def searchClaimed (ps : List (List Char)) (q : List Char) (mc : Nat) : List (List Char) :=
  searchClaimedGo ps q mc (List.range ps.length) ([], 0)

-- =========================================================================
-- Lemmas about chunkText (claim C1)
-- =========================================================================

theorem chunkTextGo_nil (fuel maxChars : Nat) : chunkTextGo fuel [] maxChars = [] := by
  cases fuel <;> simp [chunkTextGo]

theorem chunkTextGo_flatten (fuel : Nat) :
    ∀ (t : List Char) (B : Nat), 0 < B → t.length < fuel →
      (chunkTextGo fuel t B).flatten = t := by
  induction fuel with
  | zero => intro t B _ h; exact absurd h (Nat.not_lt_zero _)
  | succ n ih =>
    intro t B hB h
    match t with
    | [] => simp [chunkTextGo]
    | c :: rest =>
      have hlen : ((c :: rest).drop B).length < n := by
        simp only [List.length_drop, List.length_cons]
        simp only [List.length_cons] at h
        omega
      simp only [chunkTextGo, List.isEmpty_cons, Bool.false_eq_true, if_false,
        List.flatten_cons, ih _ B hB hlen]
      exact List.take_append_drop B (c :: rest)

theorem chunkTextGo_dropLast (fuel : Nat) :
    ∀ (t : List Char) (B : Nat), 0 < B → t.length < fuel →
      ∀ c ∈ (chunkTextGo fuel t B).dropLast, c.length = B := by
  induction fuel with
  | zero => intro t B _ h; exact absurd h (Nat.not_lt_zero _)
  | succ n ih =>
    intro t B hB h
    match t with
    | [] => simp [chunkTextGo]
    | a :: rest =>
      have hlen : ((a :: rest).drop B).length < n := by
        simp only [List.length_drop, List.length_cons]
        simp only [List.length_cons] at h
        omega
      simp only [chunkTextGo, List.isEmpty_cons, Bool.false_eq_true, if_false]
      intro c hc
      match hr : chunkTextGo n ((a :: rest).drop B) B with
      | [] => simp [hr] at hc
      | r :: rs =>
        rw [hr, List.dropLast_cons₂] at hc
        rcases List.mem_cons.mp hc with h1 | h2
        · -- the head chunk `take B` has length exactly B because the rest
          -- of the text is non-empty, i.e. B < t.length
          have hne : (a :: rest).drop B ≠ [] := by
            intro hd
            rw [hd, chunkTextGo_nil] at hr
            exact List.noConfusion hr
          have hBlt : B < (a :: rest).length := by
            by_contra hle
            exact hne (List.drop_eq_nil_of_le (Nat.le_of_not_lt hle))
          rw [h1, List.length_take]
          omega
        · have := ih ((a :: rest).drop B) B hB hlen c
          rw [hr] at this
          exact this h2

theorem chunkTextGo_len_le (fuel : Nat) :
    ∀ (t : List Char) (B : Nat), ∀ c ∈ chunkTextGo fuel t B, c.length ≤ B := by
  induction fuel with
  | zero => intro t B c hc; simp [chunkTextGo] at hc
  | succ n ih =>
    intro t B c hc
    match t with
    | [] => simp [chunkTextGo] at hc
    | a :: rest =>
      simp only [chunkTextGo, List.isEmpty_cons, Bool.false_eq_true, if_false] at hc
      rcases List.mem_cons.mp hc with h1 | h2
      · rw [h1]; exact List.length_take_le B _
      · exact ih _ B c h2

/-- Claim C1: for every text `T` and positive budget `B`, `chunkText`
partitions `T` into an ordered sequence of substrings whose concatenation
equals `T` exactly (no overlap, no loss), every chunk except possibly the
last has length exactly `B`, and no chunk exceeds `B`. -/
theorem claim_C1_chunk_partition (t : List Char) (B : Nat) (hB : 0 < B) :
    (chunkText t B).flatten = t ∧
    (∀ c ∈ (chunkText t B).dropLast, c.length = B) ∧
    (∀ c ∈ chunkText t B, c.length ≤ B) :=
  ⟨chunkTextGo_flatten _ t B hB (Nat.lt_succ_self _),
   chunkTextGo_dropLast _ t B hB (Nat.lt_succ_self _),
   chunkTextGo_len_le _ t B⟩

/-- Witness for C1 at `T = "abcde"`, `B = 2`. -/
theorem claim_C1_witness : (chunkText "abcde".data 2).flatten = "abcde".data :=
  (claim_C1_chunk_partition "abcde".data 2 (by decide)).1

-- =========================================================================
-- Claim C2: format dispatch order
-- =========================================================================

/-- Claim C2: the format dispatch of `get_document` selects exactly one
outcome, checking in order with first match winning: image/* prefix →
unsupported-with-OCR; text/* prefix or "plain" substring → UTF-8 text;
MIME equal to application/pdf or containing "pdf" or identifier ending in
.pdf → PDF; "word" or "officedocument" substring → word-processor;
anything else → unsupported-format.  Stated as: the source dispatch chain
equals the dispatch table the claim describes, for every MIME type and
identifier. -/
theorem claim_C2_dispatch (mimeType identifier : List Char) :
    dispatchFormat mimeType identifier = dispatchFormatSpec mimeType identifier := by
  unfold dispatchFormat dispatchFormatSpec
  split_ifs with h1 h2 h3 h4 h5 h6 h7 h8 <;>
    first
      | rfl
      | (exfalso
         simp only [Bool.or_eq_true] at *
         tauto)

-- =========================================================================
-- Claim C9: max_chars defaulting
-- =========================================================================

/-- Claim C9: the effective character budget of the engine equals
`args.max_chars` exactly when that argument is a number greater than zero,
and is the default 8000 for every other input (absent, non-numeric, zero or
negative). -/
theorem claim_C9_max_chars :
    (∀ n : Int, 0 < n → effMaxChars (NumArg.num n) = n.toNat) ∧
    (∀ n : Int, n ≤ 0 → effMaxChars (NumArg.num n) = 8000) ∧
    effMaxChars NumArg.nonNumeric = 8000 ∧
    effMaxChars NumArg.absent = 8000 := by
  refine ⟨fun n h => ?_, fun n h => ?_, rfl, rfl⟩
  · simp [effMaxChars, h]
  · simp only [effMaxChars, if_neg (by omega : ¬ (0 : Int) < n)]

/-- Witness for C9 at `max_chars = 5`. -/
theorem claim_C9_witness : effMaxChars (NumArg.num 5) = (5 : Int).toNat :=
  claim_C9_max_chars.1 5 (by decide)

-- =========================================================================
-- Claim C8: determinism of the engine
-- =========================================================================

/-- Claim C8: the engine is a pure function of the extracted text and the
call arguments; in a sequence of invocations, any two invocations with
identical text, mode and arguments produce identical outputs — no hidden
state is carried between calls. -/
theorem claim_C8_deterministic (calls : List Invocation) (i j : Nat)
    (h : calls[i]? = calls[j]?) :
    (calls.map runInvocation)[i]? = (calls.map runInvocation)[j]? := by
  simp only [List.getElem?_map, h]

/-- Witness for C8: two identical chunk requests in one call sequence give
the same output. -/
theorem claim_C8_witness :
    (([⟨"hi".data, ⟨some "chunk", NumArg.num 0, NumArg.absent, none⟩⟩,
       ⟨"hi".data, ⟨some "chunk", NumArg.num 0, NumArg.absent, none⟩⟩] :
        List Invocation).map runInvocation)[0]? =
    (([⟨"hi".data, ⟨some "chunk", NumArg.num 0, NumArg.absent, none⟩⟩,
       ⟨"hi".data, ⟨some "chunk", NumArg.num 0, NumArg.absent, none⟩⟩] :
        List Invocation).map runInvocation)[1]? :=
  claim_C8_deterministic _ 0 1 (by decide)

-- =========================================================================
-- Claim C6: empty-text guard
-- =========================================================================

/-- Claim C6: whenever the extracted text is empty or whitespace-only, the
engine returns the single structured "no text extracted" failure, whatever
the requested mode (preview, chunk, search, full or unknown) and whatever
the other arguments. -/
theorem claim_C6_empty_guard (text : List Char) (a : Args)
    (h : jsTrim text = []) :
    getDocumentView text a = DocResult.noText (effMode a.mode) := by
  simp [getDocumentView, h]

/-- Witness for C6: whitespace-only text under mode "chunk". -/
theorem claim_C6_witness :
    getDocumentView "  ".data ⟨some "chunk", NumArg.num 0, NumArg.absent, none⟩ =
    DocResult.noText (effMode (some "chunk")) :=
  claim_C6_empty_guard "  ".data _ (by decide)

-- =========================================================================
-- Claim C3: full-mode size guard
-- =========================================================================

theorem text_nonempty_of_trim (text : List Char) (ht : jsTrim text ≠ []) :
    text.isEmpty = false ∧ (jsTrim text).isEmpty = false := by
  constructor
  · cases text with
    | nil => exact absurd rfl ht
    | cons c t => rfl
  · cases hjt : jsTrim text with
    | nil => exact absurd hjt ht
    | cons c t => rfl

/-- Claim C3: with mode "full" on non-empty extracted text, the engine
refuses with the size-guard failure (and returns no document text)
exactly when `round(totalLength/4) > 40000`; otherwise it returns the
first `min(totalLength, maxChars)` characters with the truncated flag set
iff `totalLength > maxChars`. -/
theorem claim_C3_size_guard (text : List Char) (a : Args)
    (hm : effMode a.mode = "full") (ht : jsTrim text ≠ []) :
    (40000 < (text.length + 2) / 4 →
      getDocumentView text a =
        DocResult.sizeGuardFail ((text.length + 2) / 4) sizeGuardSuggestion) ∧
    ((text.length + 2) / 4 ≤ 40000 →
      getDocumentView text a =
        DocResult.fullOk text.length ((text.length + 2) / 4)
          (decide (effMaxChars a.max_chars < text.length))
          (text.take (effMaxChars a.max_chars))) := by
  obtain ⟨e1, e2⟩ := text_nonempty_of_trim text ht
  constructor
  · intro hbig
    simp [getDocumentView, e1, e2, hm, hbig]
  · intro hle
    have hnot : ¬ (40000 < (text.length + 2) / 4) := by omega
    have hsplit : (if effMaxChars a.max_chars < text.length
        then text.take (effMaxChars a.max_chars) else text)
        = text.take (effMaxChars a.max_chars) := by
      split
      · rfl
      · exact (List.take_of_length_le (by omega)).symm
    simp [getDocumentView, e1, e2, hm, hnot, hsplit]

/-- Witness for C3: a five-character text in full mode is returned whole,
untruncated. -/
theorem claim_C3_witness :
    getDocumentView "hello".data ⟨some "full", NumArg.absent, NumArg.absent, none⟩ =
    DocResult.fullOk ("hello".data).length ((("hello".data).length + 2) / 4)
      (decide (effMaxChars NumArg.absent < ("hello".data).length))
      (("hello".data).take (effMaxChars NumArg.absent)) :=
  (claim_C3_size_guard "hello".data
    ⟨some "full", NumArg.absent, NumArg.absent, none⟩ (by decide) (by decide)).2 (by decide)

-- =========================================================================
-- Claim C4: chunk mode range handling
-- =========================================================================

/-- The out-of-range error message textually contains the valid index
range `0-(chunkCount-1)`. -/
theorem chunkRangeMsg_states_range (idx : Int) (n : Nat) :
    ("0-".data ++ (toString (n - 1)).data) <:+: chunkRangeMsg idx n := by
  refine ⟨"chunk_index ".data ++ (toString idx).data ++ " out of range (".data,
    ")".data, ?_⟩
  simp only [chunkRangeMsg]
  simp [List.append_assoc]

/-- Claim C4: with mode "chunk" on non-empty extracted text, an index
outside `[0, chunkCount-1]` yields the failure whose error message states
the valid range `0-(chunkCount-1)`, and an index inside the range yields
the addressed chunk verbatim together with the total length, estimated
token count and chunk count. -/
theorem claim_C4_chunk_mode (text : List Char) (a : Args)
    (hm : effMode a.mode = "chunk") (ht : jsTrim text ≠ []) :
    ((effChunkIndex a.chunk_index < 0 ∨
        ((chunkText text (effMaxChars a.max_chars)).length : Int) ≤ effChunkIndex a.chunk_index) →
      getDocumentView text a =
        DocResult.chunkRangeFail (effChunkIndex a.chunk_index)
          (chunkText text (effMaxChars a.max_chars)).length text.length
          (chunkRangeMsg (effChunkIndex a.chunk_index)
            (chunkText text (effMaxChars a.max_chars)).length) ∧
      ("0-".data ++ (toString ((chunkText text (effMaxChars a.max_chars)).length - 1)).data) <:+:
        chunkRangeMsg (effChunkIndex a.chunk_index)
          (chunkText text (effMaxChars a.max_chars)).length) ∧
    (0 ≤ effChunkIndex a.chunk_index →
      effChunkIndex a.chunk_index < ((chunkText text (effMaxChars a.max_chars)).length : Int) →
      getDocumentView text a =
        DocResult.chunkOk text.length ((text.length + 2) / 4)
          (chunkText text (effMaxChars a.max_chars)).length
          (effChunkIndex a.chunk_index).toNat
          ((chunkText text (effMaxChars a.max_chars)).getD
            (effChunkIndex a.chunk_index).toNat [])) := by
  obtain ⟨e1, e2⟩ := text_nonempty_of_trim text ht
  constructor
  · intro hrange
    refine ⟨?_, chunkRangeMsg_states_range _ _⟩
    simp [getDocumentView, e1, e2, hm, hrange]
  · intro h0 hlt
    have hnot : ¬ (effChunkIndex a.chunk_index < 0 ∨
        ((chunkText text (effMaxChars a.max_chars)).length : Int) ≤ effChunkIndex a.chunk_index) := by
      omega
    simp [getDocumentView, e1, e2, hm, hnot]

/-- Witness for C4: `chunk_index = 5` on the 3-chunk document "hello" with
budget 2 fails, and the message contains "0-2". -/
theorem claim_C4_witness :
    getDocumentView "hello".data ⟨some "chunk", NumArg.num 5, NumArg.num 2, none⟩ =
      DocResult.chunkRangeFail (effChunkIndex (NumArg.num 5))
        (chunkText "hello".data (effMaxChars (NumArg.num 2))).length ("hello".data).length
        (chunkRangeMsg (effChunkIndex (NumArg.num 5))
          (chunkText "hello".data (effMaxChars (NumArg.num 2))).length) ∧
    ("0-".data ++ (toString ((chunkText "hello".data (effMaxChars (NumArg.num 2))).length - 1)).data) <:+:
      chunkRangeMsg (effChunkIndex (NumArg.num 5))
        (chunkText "hello".data (effMaxChars (NumArg.num 2))).length :=
  (claim_C4_chunk_mode "hello".data
    ⟨some "chunk", NumArg.num 5, NumArg.num 2, none⟩ (by decide) (by decide)).1 (by decide)

-- =========================================================================
-- Search-loop lemmas (claims C5 and C10)
-- =========================================================================

theorem nl2_length : nl2.length = 2 := rfl

/-- The accumulator text each admitted paragraph appends: the paragraph
followed by the separator. -/
def seFlat (g : List (List Char)) : List Char :=
  (g.map (fun p => p ++ nl2)).flatten

theorem seFlat_length (g : List (List Char)) : (seFlat g).length = accLen g := by
  induction g with
  | nil => rfl
  | cons p rest ih =>
    simp only [seFlat, List.map_cons, List.flatten_cons, List.length_append, accLen,
      List.sum_cons, nl2_length] at ih ⊢
    omega

theorem accLen_append (a b : List (List Char)) :
    accLen (a ++ b) = accLen a + accLen b := by
  simp [accLen, List.map_append, List.sum_append]

/-- The inner context loop appends exactly the greedy budget-fitting
prefix of the context block, both to `matches` and (with separators) to
`accumulated`. -/
theorem addContext_eq (mc : Nat) (ctx : List (List Char)) :
    ∀ (ms : List (List Char)) (acc : List Char),
      addContext mc ctx (ms, acc)
        = (ms ++ greedyTake mc acc.length ctx,
           acc ++ seFlat (greedyTake mc acc.length ctx)) := by
  induction ctx with
  | nil => intro ms acc; simp [addContext, greedyTake, seFlat]
  | cons p rest ih =>
    intro ms acc
    by_cases hc : mc < acc.length + p.length + 2
    · simp [addContext, greedyTake, hc, seFlat]
    · simp only [addContext, greedyTake, if_neg hc]
      rw [ih]
      have hl : (acc ++ p ++ nl2).length = acc.length + p.length + 2 := by
        simp only [List.length_append, nl2_length]
      rw [hl]
      simp [seFlat, List.append_assoc, Nat.add_assoc]

theorem addContext_bound (mc : Nat) (ctx : List (List Char)) :
    ∀ (ms : List (List Char)) (acc : List Char),
      acc.length ≤ mc → (addContext mc ctx (ms, acc)).2.length ≤ mc := by
  induction ctx with
  | nil => intro ms acc h; exact h
  | cons p rest ih =>
    intro ms acc h
    by_cases hc : mc < acc.length + p.length + 2
    · simpa [addContext, hc] using h
    · simp only [addContext, if_neg hc]
      refine ih _ _ ?_
      simp only [List.length_append, nl2_length]
      omega

theorem searchGo_bound (ps : List (List Char)) (q : List Char) (mc : Nat) :
    ∀ (idxs : List Nat) (ms : List (List Char)) (acc : List Char),
      acc.length ≤ mc → (searchGo ps q mc idxs (ms, acc)).2.length ≤ mc := by
  intro idxs
  induction idxs with
  | nil => intro ms acc h; exact h
  | cons i rest ih =>
    intro ms acc h
    simp only [searchGo]
    by_cases hq : jsIncludes q (jsLower (ps.getD i [])) = true
    · simp only [hq, if_true]
      have hb : (addContext mc (contextAt ps i) (ms, acc)).2.length ≤ mc :=
        addContext_bound mc _ ms acc h
      by_cases hstop : mc ≤ (addContext mc (contextAt ps i) (ms, acc)).2.length
      · simpa [hstop] using hb
      · simpa [hstop] using
          ih (addContext mc (contextAt ps i) (ms, acc)).1
            (addContext mc (contextAt ps i) (ms, acc)).2 hb
    · simp only [Bool.not_eq_true] at hq
      simp only [hq, Bool.false_eq_true, if_false]
      by_cases hstop : mc ≤ acc.length
      · simpa [hstop] using h
      · simpa [hstop] using ih ms acc h

/-- The source search loop computes exactly the amended-claim result, and
its accumulator length tracks `accLen` of its `matches`. -/
theorem searchGo_spec (ps : List (List Char)) (q : List Char) (mc : Nat) :
    ∀ (idxs : List Nat) (ms : List (List Char)) (acc : List Char),
      acc.length = accLen ms →
      (searchGo ps q mc idxs (ms, acc)).1 = searchAmendedGo ps q mc idxs ms ∧
      (searchGo ps q mc idxs (ms, acc)).2.length
        = accLen (searchGo ps q mc idxs (ms, acc)).1 := by
  intro idxs
  induction idxs with
  | nil =>
    intro ms acc h
    exact ⟨rfl, h⟩
  | cons i rest ih =>
    intro ms acc h
    by_cases hq : jsIncludes q (jsLower (ps.getD i [])) = true
    · have haddc := addContext_eq mc (contextAt ps i) ms acc
      have hlen2 : (acc ++ seFlat (greedyTake mc acc.length (contextAt ps i))).length
          = accLen (ms ++ greedyTake mc acc.length (contextAt ps i)) := by
        simp only [List.length_append, seFlat_length, accLen_append, h]
      by_cases hstop : mc ≤ accLen (ms ++ greedyTake mc acc.length (contextAt ps i))
      · constructor
        · simp only [searchGo, searchAmendedGo, hq, if_true, haddc, ← h, hlen2,
            if_pos hstop]
        · simp only [searchGo, hq, if_true, haddc, hlen2, if_pos hstop]
      · have hrec := ih (ms ++ greedyTake mc acc.length (contextAt ps i))
          (acc ++ seFlat (greedyTake mc acc.length (contextAt ps i))) hlen2
        constructor
        · simp only [searchGo, searchAmendedGo, hq, if_true, haddc, ← h, hlen2,
            if_neg hstop]
          exact hrec.1
        · simp only [searchGo, hq, if_true, haddc, hlen2, if_neg hstop]
          exact hrec.2
    · simp only [Bool.not_eq_true] at hq
      by_cases hstop : mc ≤ accLen ms
      · constructor
        · simp only [searchGo, searchAmendedGo, hq, Bool.false_eq_true, if_false, h,
            if_pos hstop]
        · simp only [searchGo, hq, Bool.false_eq_true, if_false, h, if_pos hstop]
      · have hrec := ih ms acc h
        constructor
        · simp only [searchGo, searchAmendedGo, hq, Bool.false_eq_true, if_false, h,
            if_neg hstop]
          exact hrec.1
        · simp only [searchGo, hq, Bool.false_eq_true, if_false, h, if_neg hstop]
          exact hrec.2

theorem joinSep_length : ∀ (ms : List (List Char)), ms ≠ [] →
    (joinSep ms).length + 2 = accLen ms
  | [], h => absurd rfl h
  | [p], _ => by simp [joinSep, accLen]
  | p :: p2 :: rest, _ => by
    have ih := joinSep_length (p2 :: rest) (by simp)
    simp only [joinSep, accLen, List.map_cons, List.sum_cons, List.length_append,
      nl2_length] at ih ⊢
    omega

theorem effMaxChars_pos (x : NumArg) : 0 < effMaxChars x := by
  cases x with
  | num n =>
    by_cases h : 0 < n
    · simp only [effMaxChars, if_pos h]
      omega
    · simp only [effMaxChars, if_neg h]
      decide
  | nonNumeric => exact (by decide : (0 : Nat) < 8000)
  | absent => exact (by decide : (0 : Nat) < 8000)

/-- The double-newline-joined snippet text of the search loop is strictly
shorter than any positive budget. -/
theorem searchMatches_budget (ps : List (List Char)) (q : List Char) (mc : Nat)
    (hmc : 0 < mc) : (joinSep (searchMatches ps q mc)).length < mc := by
  obtain ⟨-, h2⟩ := searchGo_spec ps q mc (List.range ps.length) [] [] (by simp [accLen])
  have hb := searchGo_bound ps q mc (List.range ps.length) [] [] (Nat.zero_le mc)
  have hacc : accLen (searchMatches ps q mc) ≤ mc := by
    unfold searchMatches
    rw [← h2]
    exact hb
  by_cases hne : searchMatches ps q mc = []
  · rw [hne]
    simpa [joinSep] using hmc
  · have hj := joinSep_length _ hne
    omega

-- =========================================================================
-- Claim C5: search accumulation policy
-- =========================================================================

/-- Counterexample to claim C5 as stated.  Text with paragraphs
`["qqqqq", "zzzzzzzzzzzz", "a", "qq"]`, query `"q"`, budget 20: at the
first match the successor paragraph (12 z characters) would exceed the budget, yet
the source loop afterwards still admits the paragraphs `"a"` and `"qq"`;
the claim ("no further paragraphs are added after the first one that would
exceed the budget", modelled by `searchClaimed`) predicts that accumulation
ends with `["qqqqq"]`. -/
theorem claim_C5_counterexample :
    searchMatches (splitParagraphs "qqqqq\n\nzzzzzzzzzzzz\n\na\n\nqq".data) "q".data 20
      = ["qqqqq".data, "a".data, "qq".data] ∧
    searchClaimed (splitParagraphs "qqqqq\n\nzzzzzzzzzzzz\n\na\n\nqq".data) "q".data 20
      = ["qqqqq".data] ∧
    searchMatches (splitParagraphs "qqqqq\n\nzzzzzzzzzzzz\n\na\n\nqq".data) "q".data 20
      ≠ searchClaimed (splitParagraphs "qqqqq\n\nzzzzzzzzzzzz\n\na\n\nqq".data) "q".data 20 := by
  decide

/-- Amended claim C5: each paragraph containing the lower-cased query
contributes the greedy budget-fitting prefix of its context block
(predecessor, itself, successor, in document order); a paragraph that
would exceed the budget ends only the block of the current match; the scan
continues with later matches (earlier matches are never evicted) and stops
once the accumulated length reaches the budget.  Stated as: the source
loop equals the amended-policy function on all inputs. -/
theorem claim_C5_amended_search (ps : List (List Char)) (q : List Char) (mc : Nat) :
    searchMatches ps q mc = searchAmended ps q mc :=
  (searchGo_spec ps q mc (List.range ps.length) [] [] (by simp [accLen])).1

-- =========================================================================
-- Claim C10: search output stays under the budget
-- =========================================================================

/-- Claim C10: whenever the engine returns a search-mode success, the
double-newline-joined snippet text is strictly shorter than the effective
character budget. -/
theorem claim_C10_search_budget (text : List Char) (a : Args) (q : List Char)
    (tl est cnt : Nat) (out : List Char)
    (h : getDocumentView text a = DocResult.searchOk q tl est cnt out) :
    out.length < effMaxChars a.max_chars := by
  have hpos : 0 < effMaxChars a.max_chars := effMaxChars_pos a.max_chars
  simp only [getDocumentView] at h
  split at h
  · exact absurd h (by simp)
  · split at h
    · exact absurd h (by simp)
    · split at h
      · exact absurd h (by simp)
      · split at h
        · split at h
          · exact absurd h (by simp)
          · exact absurd h (by simp)
        · split at h
          · split at h
            · exact absurd h (by simp)
            · rw [DocResult.searchOk.injEq] at h
              obtain ⟨-, -, -, -, hout⟩ := h
              rw [← hout]
              exact searchMatches_budget _ _ _ hpos
          · split at h
            · exact absurd h (by simp)
            · exact absurd h (by simp)

/-- Witness for C10: a concrete search success stays under the default
budget. -/
theorem claim_C10_witness :
    ("hello\n\nworld".data).length < effMaxChars NumArg.absent :=
  claim_C10_search_budget "hello\n\nworld".data
    ⟨some "search", NumArg.absent, NumArg.absent, some "hello".data⟩
    "hello".data 12 3 2 "hello\n\nworld".data (by decide)

-- =========================================================================
-- Claim C7: failure payload shape and exception wrapping
-- =========================================================================

/-- Counterexample to claim C7 as stated: the out-of-range chunk failure —
a reachable failure outcome of `get_document` — carries no `suggestion`
key (the same holds for the empty-text, empty-search-query and
unknown-mode failures). -/
theorem claim_C7_counterexample :
    isFailure (getDocumentView "hi".data
      ⟨some "chunk", NumArg.num 5, NumArg.absent, none⟩) = true ∧
    (resultFields (getDocumentView "hi".data
      ⟨some "chunk", NumArg.num 5, NumArg.absent, none⟩)).contains "suggestion" = false := by
  decide

/-- Amended claim C7: every failure outcome carries `success:false` and
`error`; among the failures of the engine only the size-guard failure also
carries `suggestion` (the empty-text, chunk-out-of-range,
empty-search-query and unknown-mode failures omit it), while the image,
unsupported-format, extraction-failure, case-not-found and no-documents
failures do carry all three; and the dispatcher wraps every escaping
exception as a returned `{error:true, tool, message, suggestion}` envelope
with the `isError` flag — it never rethrows across the RPC boundary. -/
theorem claim_C7_amended_payloads :
    (∀ r : DocResult, isFailure r = true →
      "success" ∈ resultFields r ∧ "error" ∈ resultFields r) ∧
    (∀ r : DocResult, isFailure r = true →
      ("suggestion" ∈ resultFields r ↔ ∃ est s, r = DocResult.sizeGuardFail est s)) ∧
    ("suggestion" ∈ imageUnsupportedFields ∧ "suggestion" ∈ unsupportedFormatFields ∧
     "suggestion" ∈ extractionFailureFields ∧ "suggestion" ∈ caseNotFoundFields ∧
     "suggestion" ∈ noDocumentsFields) ∧
    (∀ toolName msg : String,
      (wrapException toolName msg).error = true ∧
      (wrapException toolName msg).isErrorFlag = true ∧
      (wrapException toolName msg).tool = toolName ∧
      (wrapException toolName msg).message = msg) := by
  refine ⟨?_, ?_, by decide, fun toolName msg => ⟨rfl, rfl, rfl, rfl⟩⟩
  · intro r hr
    cases r <;> simp_all [resultFields, isFailure]
  · intro r hr
    cases r <;> simp_all [resultFields, isFailure]

/-- Witness for C7 (amended): the empty-text failure carries `success` and
`error`. -/
theorem claim_C7_witness :
    "success" ∈ resultFields (DocResult.noText "preview") ∧
    "error" ∈ resultFields (DocResult.noText "preview") :=
  claim_C7_amended_payloads.1 (DocResult.noText "preview") (by decide)
